import Mathlib

/-!
Verification of the resilient multi-backend media-extraction service of the
`cerebral` repository: the extractor base class
(`src/app/lib/extractors/base-extractor.ts`), the extraction router
(`src/app/lib/extractors/extractor-manager.ts`) and the health monitor
(`src/unnamed/part_002`, class `HealthMonitor`).

The embedding is shallow: JavaScript numbers are modelled as exact rationals
(the claims under study are about the algebraic update rules and comparisons
against the thresholds, not floating-point rounding), mutation of `this` is
modelled by explicit state passing, `async` methods that can reject are
modelled with `Except`, and the network backends (`ytdl-core`, `play-dl`,
`distube`) are modelled as oracles: for each primitive method a function from
the call number to the outcome of that call.  The wall-clock `Date` values
stored in `lastSuccess` / `lastFailure` are write-only in every code path the
claims touch and are omitted; the monitor's metric timestamps, which the
alert logic does read, are modelled as naturals supplied by the caller (one
reading per sampling pass, strictly increasing across passes in real runs).
-/

namespace Cerebral

/-! ### Health record (base-extractor.ts, lines 12-35) -/

/-- Per-extractor health record (interface `ExtractorHealth`), minus the two
write-only `Date` fields. -/
structure ExtractorHealth where
  name : String
  successRate : ℚ
  totalAttempts : Nat
  successCount : Nat
deriving DecidableEq

/-- The record a `BaseExtractor` is constructed with (constructor, lines 25-35):
a neutral 0.5 prior and zeroed counters. -/
def initHealth (name : String) : ExtractorHealth :=
  { name := name, successRate := 0.5, totalAttempts := 0, successCount := 0 }

/-- Embedding of `BaseExtractor.updateSuccessRate` (lines 56-63): blend the cumulative ratio
into the running rate with weights 0.7 / 0.3. -/
def updateSuccessRate (h : ExtractorHealth) : ExtractorHealth :=
  if h.totalAttempts = 0 then
    { h with successRate := 0.5 }
  else
    { h with successRate :=
        h.successRate * 0.7 + ((h.successCount : ℚ) / (h.totalAttempts : ℚ)) * 0.3 }

/-- Embedding of `BaseExtractor.recordSuccess` (lines 43-48). -/
def recordSuccess (h : ExtractorHealth) : ExtractorHealth :=
  updateSuccessRate
    { h with totalAttempts := h.totalAttempts + 1, successCount := h.successCount + 1 }

/-- Embedding of `BaseExtractor.recordFailure` (lines 50-54). -/
def recordFailure (h : ExtractorHealth) : ExtractorHealth :=
  updateSuccessRate { h with totalAttempts := h.totalAttempts + 1 }

/-- A finite sequence of `recordSuccess` (`true`) / `recordFailure` (`false`)
calls applied in order. -/
def applyCalls (l : List Bool) (h : ExtractorHealth) : ExtractorHealth :=
  l.foldl (fun a b => if b then recordSuccess a else recordFailure a) h

/-- The invariant of claim C5: rate within [0,1], successes never exceed
attempts. -/
def HealthInv (h : ExtractorHealth) : Prop :=
  0 ≤ h.successRate ∧ h.successRate ≤ 1 ∧ h.successCount ≤ h.totalAttempts

/-! ### Extractors (base-extractor.ts, lines 1-10 and 21-127) -/

/-- Video metadata (`YouTubeVideoInfo`, `src/app/types/index.ts`). -/
structure YouTubeVideoInfo where
  title : String
  duration : Nat
  thumbnailUrl : String
  description : String
  author : String
deriving DecidableEq, Inhabited

/-- Embedding of `ExtractionResult` (base-extractor.ts, lines 3-10).  A `Buffer` is a byte
list.  Optional fields are `none` when the JavaScript field is `undefined`;
JavaScript truthiness of a `Buffer`-valued field corresponds to `isSome`
(every `Buffer` object, zero-length included, is truthy). -/
structure ExtractionResult where
  success : Bool
  videoInfo : Option YouTubeVideoInfo := none
  audioUrl : Option String := none
  audioBuffer : Option (List Nat) := none
  error : Option String := none
  extractorUsed : Option String := none

/-- One concrete backend implementation (the abstract methods of
`BaseExtractor`, lines 37-41).  The three network-facing methods are oracles:
the outcome of the n-th call to the method, as a message-carrying `Except`
(a rejected promise carries its error message).  `canHandle` and `isValidUrl`
are the synchronous, non-throwing checks of the source contract. -/
structure Backend where
  name : String
  canHandle : String → Bool
  isValidUrl : String → Bool
  getVideoInfo : Nat → Except String YouTubeVideoInfo
  getAudioUrl : Nat → Except String String
  downloadAudioBuffer : Nat → Except String (List Nat)

/-- Mutable state of one extractor object: its backend, its health record and
the per-method call counters that index the oracles. -/
structure ExtractorState where
  backend : Backend
  health : ExtractorHealth
  infoCalls : Nat := 0
  audioUrlCalls : Nat := 0
  bufferCalls : Nat := 0

/-- The failure `ExtractionResult` built in the catch arms of
`extract` / `extractBuffer` (lines 89-96 and 119-126): `success: false`,
the caught error's message, and the extractor's name. -/
def failResult (name msg : String) : ExtractionResult :=
  { success := false, error := some msg, extractorUsed := some name }

/-- Embedding of `BaseExtractor.extract` (lines 69-97).  The entire body is wrapped in
try/catch, so the method never rejects: every thrown error (the two guard
throws and rejected `getVideoInfo` / `getAudioUrl` promises) lands in the
single catch arm, which records a failure and returns a failure result. -/
def extract (s : ExtractorState) (url : String) : ExtractionResult × ExtractorState :=
  if s.backend.canHandle url = false then
    (failResult s.backend.name (s.backend.name ++ " cannot handle this URL"),
     { s with health := recordFailure s.health })
  else if s.backend.isValidUrl url = false then
    (failResult s.backend.name ("Invalid URL format for " ++ s.backend.name),
     { s with health := recordFailure s.health })
  else
    match s.backend.getVideoInfo s.infoCalls with
    | .error e =>
        (failResult s.backend.name e,
         { s with infoCalls := s.infoCalls + 1, health := recordFailure s.health })
    | .ok vi =>
        match s.backend.getAudioUrl s.audioUrlCalls with
        | .error e =>
            (failResult s.backend.name e,
             { s with
                infoCalls := s.infoCalls + 1
                audioUrlCalls := s.audioUrlCalls + 1
                health := recordFailure s.health })
        | .ok au =>
            ({ success := true, videoInfo := some vi, audioUrl := some au,
               extractorUsed := some s.backend.name },
             { s with
                infoCalls := s.infoCalls + 1
                audioUrlCalls := s.audioUrlCalls + 1
                health := recordSuccess s.health })

/-- Embedding of `BaseExtractor.extractBuffer` (lines 99-127): like `extract` but resolving
audio bytes via `downloadAudioBuffer`; also fully wrapped in try/catch and
therefore total. -/
def extractBuffer (s : ExtractorState) (url : String) : ExtractionResult × ExtractorState :=
  if s.backend.canHandle url = false then
    (failResult s.backend.name (s.backend.name ++ " cannot handle this URL"),
     { s with health := recordFailure s.health })
  else if s.backend.isValidUrl url = false then
    (failResult s.backend.name ("Invalid URL format for " ++ s.backend.name),
     { s with health := recordFailure s.health })
  else
    match s.backend.getVideoInfo s.infoCalls with
    | .error e =>
        (failResult s.backend.name e,
         { s with infoCalls := s.infoCalls + 1, health := recordFailure s.health })
    | .ok vi =>
        match s.backend.downloadAudioBuffer s.bufferCalls with
        | .error e =>
            (failResult s.backend.name e,
             { s with
                infoCalls := s.infoCalls + 1
                bufferCalls := s.bufferCalls + 1
                health := recordFailure s.health })
        | .ok buf =>
            ({ success := true, videoInfo := some vi, audioBuffer := some buf,
               extractorUsed := some s.backend.name },
             { s with
                infoCalls := s.infoCalls + 1
                bufferCalls := s.bufferCalls + 1
                health := recordSuccess s.health })

/-! ### The extraction router (extractor-manager.ts)

The manager's mutable state is its array `this.extractors`; extractor objects
are aliased (the sorted array holds references into it), which the embedding
renders by working with indices into the list.  Every operation returns its
result together with the updated extractor list. -/

/-- Stable insertion used below: place `x` before the first element whose key
is strictly smaller, i.e. after every element with a key ≥ its own — exactly
where a stable descending sort puts a later-encountered element. -/
def insertDescBy {α β : Type} [LinearOrder β] (key : α → β) (x : α) : List α → List α
  | [] => [x]
  | y :: ys => if key y < key x then x :: y :: ys else y :: insertDescBy key x ys

/-- Stable descending sort by `key`, by left-to-right insertion.  This is the
behaviour of JavaScript `Array.prototype.sort` (stable per ES2019) with the
comparator `(a, b) => key(b) - key(a)`. -/
def stableSortDescBy {α β : Type} [LinearOrder β] (key : α → β) (l : List α) : List α :=
  l.foldl (fun acc x => insertDescBy key x acc) []

/-- The filter predicate of `getSortedExtractors` / `isValidYouTubeUrl`
(lines 22-24 and 144), on an index into the extractor list:
`canHandle(url) && isValidUrl(url)`. -/
def capableIdx (es : List ExtractorState) (url : String) (i : Nat) : Bool :=
  match es[i]? with
  | some e => e.backend.canHandle url && e.backend.isValidUrl url
  | none => false

/-- Embedding of `ExtractorManager.isValidYouTubeUrl` (lines 20-29): some registered
extractor both `canHandle`s and `isValidUrl`s the input.  (`canHandle` and
`isValidUrl` do not throw, so the catch arm returning `false` is dead.) -/
def isValidYouTubeUrl (es : List ExtractorState) (url : String) : Bool :=
  es.any (fun e => e.backend.canHandle url && e.backend.isValidUrl url)

/-- The sort key of `getSortedExtractors`: the current `successRate` of the
extractor at index `i` (out-of-range reads never happen on filtered
indices). -/
def rateAt (es : List ExtractorState) (i : Nat) : ℚ :=
  match es[i]? with
  | some e => e.health.successRate
  | none => 0

/-- Embedding of `ExtractorManager.getSortedExtractors` (lines 142-146): filter to capable
extractors, then sort descending by current `successRate` (JavaScript sort is
stable, so ties keep registration order).  Returns indices into the
extractor list, modelling the references the source array holds. -/
def getSortedExtractors (es : List ExtractorState) (url : String) : List Nat :=
  stableSortDescBy (rateAt es) ((List.range es.length).filter (capableIdx es url))

/-- The fallback loop of `ExtractorManager.extractVideoInfo` (lines 55-71):
try each extractor's `extract` in order; return the first success carrying
`videoInfo`; otherwise remember the failure message and continue.  `extract`
never rejects, so the loop's own catch arm is dead code. -/
def infoLoop (url : String) :
    List Nat → List ExtractorState → Option String →
      Except String YouTubeVideoInfo × List ExtractorState
  | [], es, lastErr =>
      (.error (lastErr.getD "All extractors failed to get video information"), es)
  | i :: rest, es, lastErr =>
      match es[i]? with
      | none => infoLoop url rest es lastErr
      | some e =>
          let p := extract e url
          let es' := es.set i p.2
          if p.1.success && p.1.videoInfo.isSome then
            (.ok (p.1.videoInfo.getD default), es')
          else
            infoLoop url rest es' (some (p.1.error.getD "Unknown extraction error"))

/-- Embedding of `ExtractorManager.extractVideoInfo` (lines 48-74). -/
def extractVideoInfo (es : List ExtractorState) (url : String) :
    Except String YouTubeVideoInfo × List ExtractorState :=
  if isValidYouTubeUrl es url = false then (.error "Invalid YouTube URL", es)
  else infoLoop url (getSortedExtractors es url) es none

/-- The fallback loop of `ExtractorManager.getAudioUrl` (lines 121-137): call
the extractor's `getAudioUrl` method directly; on a truthy (non-empty) URL
record a success and return it; on a falsy result continue recording nothing;
on a rejection record a failure, remember the message and continue. -/
def audioUrlLoop (url : String) :
    List Nat → List ExtractorState → Option String →
      Except String String × List ExtractorState
  | [], es, lastErr =>
      (.error (lastErr.getD "All extractors failed to get audio URL"), es)
  | i :: rest, es, lastErr =>
      match es[i]? with
      | none => audioUrlLoop url rest es lastErr
      | some e =>
          match e.backend.getAudioUrl e.audioUrlCalls with
          | .ok au =>
              if au = "" then
                audioUrlLoop url rest
                  (es.set i { e with audioUrlCalls := e.audioUrlCalls + 1 }) lastErr
              else
                (.ok au,
                 es.set i { e with
                   audioUrlCalls := e.audioUrlCalls + 1
                   health := recordSuccess e.health })
          | .error msg =>
              audioUrlLoop url rest
                (es.set i { e with
                  audioUrlCalls := e.audioUrlCalls + 1
                  health := recordFailure e.health }) (some msg)

/-- Embedding of `ExtractorManager.getAudioUrl` (lines 114-140). -/
def getAudioUrl (es : List ExtractorState) (url : String) :
    Except String String × List ExtractorState :=
  if isValidYouTubeUrl es url = false then (.error "Invalid YouTube URL", es)
  else audioUrlLoop url (getSortedExtractors es url) es none

/-- The fallback loop of `ExtractorManager.downloadAudioAsBuffer`
(lines 83-110).  The source wraps each extractor in
`for (retry = 0; retry <= maxRetries; retry++)`, but the loop re-enters only
from its catch arm, and `await extractor.extractBuffer(url)` never rejects
(its whole body is inside try/catch, base-extractor.ts lines 99-127): on a
failure result the `else` arm runs `break`.  The retry body therefore
executes exactly once per extractor — returning the buffer when
`result.success && result.audioBuffer` is truthy (any defined `Buffer`,
zero-length included, is truthy) and otherwise recording the message and
breaking to the next extractor. -/
def bufferLoop (url : String) :
    List Nat → List ExtractorState → Option String →
      Except String (List Nat) × List ExtractorState
  | [], es, lastErr =>
      (.error (lastErr.getD "All extractors failed to download audio"), es)
  | i :: rest, es, lastErr =>
      match es[i]? with
      | none => bufferLoop url rest es lastErr
      | some e =>
          let p := extractBuffer e url
          let es' := es.set i p.2
          if p.1.success && p.1.audioBuffer.isSome then
            (.ok (p.1.audioBuffer.getD []), es')
          else
            bufferLoop url rest es' (some (p.1.error.getD "Unknown extraction error"))

/-- Embedding of `ExtractorManager.downloadAudioAsBuffer` (lines 75-112). -/
def downloadAudioAsBuffer (es : List ExtractorState) (url : String) :
    Except String (List Nat) × List ExtractorState :=
  if isValidYouTubeUrl es url = false then (.error "Invalid YouTube URL", es)
  else bufferLoop url (getSortedExtractors es url) es none

/-! ### The health monitor (src/unnamed/part_002, class HealthMonitor) -/

/-- A metric snapshot (`HealthMetrics`), minus the two copied write-only
`Date` fields; `timestamp` is the `new Date()` reading taken once per
`recordMetrics` pass, modelled as a natural. -/
structure HealthMetrics where
  timestamp : Nat
  extractorName : String
  successRate : ℚ
  totalAttempts : Nat
  successCount : Nat

/-- Alert kinds. -/
inductive AlertType where
  | degraded
  | critical
  | recovered
deriving DecidableEq

/-- A health alert (`HealthAlert`). -/
structure HealthAlert where
  type : AlertType
  extractorName : String
  message : String
  timestamp : Nat
  successRate : ℚ

/-- Monitor state: the two bounded histories. -/
structure HealthMonitor where
  metrics : List HealthMetrics := []
  alerts : List HealthAlert := []

def emptyMonitor : HealthMonitor := {}

def maxMetricsHistory : Nat := 1000

def maxAlertsHistory : Nat := 100

def degradedThreshold : ℚ := 0.7

def criticalThreshold : ℚ := 0.3

/-- The snapshot pushed by `recordMetrics` for one health record. -/
def mkMetric (h : ExtractorHealth) (ts : Nat) : HealthMetrics :=
  { timestamp := ts, extractorName := h.name, successRate := h.successRate,
    totalAttempts := h.totalAttempts, successCount := h.successCount }

/-- The alert message strings (`Math.round(rate * 100)` rounds half toward
positive infinity, which is Mathlib's `round` on ℚ). -/
def alertMessage (t : AlertType) (rate : ℚ) : String :=
  match t with
  | .degraded => "Performance degraded: " ++ toString (round (rate * 100)) ++ "% success rate"
  | .critical => "Critical failure: " ++ toString (round (rate * 100)) ++ "% success rate"
  | .recovered => "Performance recovered: " ++ toString (round (rate * 100)) ++ "% success rate"

def mkAlert (t : AlertType) (name : String) (ts : Nat) (rate : ℚ) : HealthAlert :=
  { type := t, extractorName := name, message := alertMessage t rate,
    timestamp := ts, successRate := rate }

/-- Embedding of `HealthMonitor.addAlert` (part_002, lines 208-215): push, then truncate to
the most recent `maxAlertsHistory` entries (`slice(-cap)`). -/
def addAlert (m : HealthMonitor) (a : HealthAlert) : HealthMonitor :=
  let al := m.alerts ++ [a]
  { m with alerts :=
      if maxAlertsHistory < al.length then al.drop (al.length - maxAlertsHistory) else al }

/-- Embedding of `HealthMonitor.getLatestMetricForExtractor` (lines 217-221): filter the
metric history to this extractor, sort descending by timestamp (stable), take
the first. -/
def getLatestMetricForExtractor (m : HealthMonitor) (name : String) :
    Option HealthMetrics :=
  (stableSortDescBy (fun x => x.timestamp)
    (m.metrics.filter (fun x => x.extractorName == name)))[0]?

/-- Embedding of `HealthMonitor.checkForAlerts` (lines 167-206): the edge-trigger logic,
comparing the sampled rate against the rate of the metric returned by
`getLatestMetricForExtractor`. -/
def checkForAlerts (m : HealthMonitor) (h : ExtractorHealth) (ts : Nat) : HealthMonitor :=
  let previousMetric := getLatestMetricForExtractor m h.name
  if h.successRate < degradedThreshold ∧ criticalThreshold ≤ h.successRate then
    match previousMetric with
    | none => addAlert m (mkAlert .degraded h.name ts h.successRate)
    | some p =>
        if degradedThreshold ≤ p.successRate then
          addAlert m (mkAlert .degraded h.name ts h.successRate)
        else m
  else if h.successRate < criticalThreshold then
    match previousMetric with
    | none => addAlert m (mkAlert .critical h.name ts h.successRate)
    | some p =>
        if criticalThreshold ≤ p.successRate then
          addAlert m (mkAlert .critical h.name ts h.successRate)
        else m
  else if degradedThreshold ≤ h.successRate then
    match previousMetric with
    | none => m
    | some p =>
        if p.successRate < degradedThreshold then
          addAlert m (mkAlert .recovered h.name ts h.successRate)
        else m
  else m

/-- Embedding of `HealthMonitor.recordMetrics` (lines 143-165).  `healthData` is the list
of health records read from the manager and `ts` the single `new Date()`
reading of this pass.  For each record the snapshot is pushed and THEN
`checkForAlerts` runs (source order: `this.metrics.push(metric);
this.checkForAlerts(health);`); after the loop the metric history is
truncated to the most recent `maxMetricsHistory` entries. -/
def recordMetrics (m : HealthMonitor) (healthData : List ExtractorHealth) (ts : Nat) :
    HealthMonitor :=
  let m' := healthData.foldl
    (fun acc h =>
      let acc' := { acc with metrics := acc.metrics ++ [mkMetric h ts] }
      checkForAlerts acc' h ts) m
  if maxMetricsHistory < m'.metrics.length then
    { m' with metrics := m'.metrics.drop (m'.metrics.length - maxMetricsHistory) }
  else m'

/-! ### Concrete fixtures used by counterexamples and witnesses -/

/-- A health record carrying a prescribed success rate, used to drive the
monitor with the C1 sample sequence. -/
def rateHealth (r : ℚ) : ExtractorHealth :=
  { name := "E", successRate := r, totalAttempts := 0, successCount := 0 }

/-- The C1 spec sequence 0.9, 0.65, 0.65, 0.2, 0.5 fed to `recordMetrics`
as successive sampling passes (distinct, increasing timestamps, as produced
by `new Date()` on successive scheduled passes). -/
def c1Run : HealthMonitor :=
  recordMetrics (recordMetrics (recordMetrics (recordMetrics (recordMetrics
    emptyMonitor [rateHealth 0.9] 0)
    [rateHealth 0.65] 1)
    [rateHealth 0.65] 2)
    [rateHealth 0.2] 3)
    [rateHealth 0.5] 4

/-- A backend that always fails its buffer download (metadata succeeds), used
against C2. -/
def failingBufferBackend : Backend :=
  { name := "F", canHandle := fun _ => true, isValidUrl := fun _ => true,
    getVideoInfo := fun _ => .ok default,
    getAudioUrl := fun _ => .ok "audio",
    downloadAudioBuffer := fun _ => .error "boom" }

def failingBufferExtractor : ExtractorState :=
  { backend := failingBufferBackend, health := initHealth "F" }

/-- A backend whose buffer download succeeds with a zero-length buffer, used
against C3. -/
def emptyBufferBackend : Backend :=
  { name := "Z", canHandle := fun _ => true, isValidUrl := fun _ => true,
    getVideoInfo := fun _ => .ok default,
    getAudioUrl := fun _ => .ok "audio",
    downloadAudioBuffer := fun _ => .ok [] }

/-- A backend whose buffer download succeeds with a non-empty buffer,
registered second for C3. -/
def fullBufferBackend : Backend :=
  { name := "B", canHandle := fun _ => true, isValidUrl := fun _ => true,
    getVideoInfo := fun _ => .ok default,
    getAudioUrl := fun _ => .ok "audio",
    downloadAudioBuffer := fun _ => .ok [1, 2, 3] }

def emptyBufferExtractor : ExtractorState :=
  { backend := emptyBufferBackend, health := initHealth "Z" }

def fullBufferExtractor : ExtractorState :=
  { backend := fullBufferBackend, health := initHealth "B" }

/-- A backend failing both metadata and audio-URL resolution, used by the C7
witness. -/
def failingInfoBackend : Backend :=
  { name := "W", canHandle := fun _ => true, isValidUrl := fun _ => true,
    getVideoInfo := fun _ => .error "meta down",
    getAudioUrl := fun _ => .error "stream down",
    downloadAudioBuffer := fun _ => .error "bytes down" }

def failingInfoExtractor : ExtractorState :=
  { backend := failingInfoBackend, health := initHealth "W" }

/-- The ordering relation claimed of the router's sorted output (claim C6):
strictly greater success rate first, ties in registration (index) order. -/
def sortRel (key : Nat → ℚ) (a b : Nat) : Prop :=
  key b < key a ∨ (key a = key b ∧ a < b)

/-- A backend that cannot handle any URL, used by the C10 witness. -/
def incapableBackend : Backend :=
  { name := "N", canHandle := fun _ => false, isValidUrl := fun _ => false,
    getVideoInfo := fun _ => .error "unreachable",
    getAudioUrl := fun _ => .error "unreachable",
    downloadAudioBuffer := fun _ => .error "unreachable" }

def incapableExtractor : ExtractorState :=
  { backend := incapableBackend, health := initHealth "N" }

end Cerebral

namespace Cerebral

/-! ### Helper lemmas about the health record -/

theorem recordSuccess_totalAttempts (h : ExtractorHealth) :
    (recordSuccess h).totalAttempts = h.totalAttempts + 1 := by
  simp [recordSuccess, updateSuccessRate]

theorem recordSuccess_successCount (h : ExtractorHealth) :
    (recordSuccess h).successCount = h.successCount + 1 := by
  simp [recordSuccess, updateSuccessRate]

theorem recordFailure_totalAttempts (h : ExtractorHealth) :
    (recordFailure h).totalAttempts = h.totalAttempts + 1 := by
  simp [recordFailure, updateSuccessRate]

theorem recordFailure_successCount (h : ExtractorHealth) :
    (recordFailure h).successCount = h.successCount := by
  simp [recordFailure, updateSuccessRate]

theorem recordSuccess_successRate (h : ExtractorHealth) :
    (recordSuccess h).successRate
      = h.successRate * 0.7 + (((h.successCount : ℚ) + 1) / ((h.totalAttempts : ℚ) + 1)) * 0.3 := by
  simp [recordSuccess, updateSuccessRate]

theorem recordFailure_successRate (h : ExtractorHealth) :
    (recordFailure h).successRate
      = h.successRate * 0.7 + ((h.successCount : ℚ) / ((h.totalAttempts : ℚ) + 1)) * 0.3 := by
  simp [recordFailure, updateSuccessRate]

theorem applyCalls_totalAttempts :
    ∀ (l : List Bool) (h : ExtractorHealth),
      (applyCalls l h).totalAttempts = h.totalAttempts + l.length := by
  intro l
  induction l with
  | nil => intro h; simp [applyCalls]
  | cons b t ih =>
      intro h
      cases b <;>
        simp [applyCalls, List.foldl_cons] <;>
        rw [show (List.foldl (fun a b => if b then recordSuccess a else recordFailure a) _ t)
              = applyCalls t _ from rfl, ih] <;>
        simp [recordSuccess_totalAttempts, recordFailure_totalAttempts] <;> omega

theorem applyCalls_successCount :
    ∀ (l : List Bool) (h : ExtractorHealth),
      (applyCalls l h).successCount = h.successCount + l.count true := by
  intro l
  induction l with
  | nil => intro h; simp [applyCalls]
  | cons b t ih =>
      intro h
      cases b <;>
        simp [applyCalls, List.foldl_cons] <;>
        rw [show (List.foldl (fun a b => if b then recordSuccess a else recordFailure a) _ t)
              = applyCalls t _ from rfl, ih] <;>
        simp [recordSuccess_successCount, recordFailure_successCount, List.count_cons] <;> omega

theorem healthInv_recordSuccess {h : ExtractorHealth} (hi : HealthInv h) :
    HealthInv (recordSuccess h) := by
  obtain ⟨h0, h1, hc⟩ := hi
  have hq0 : (0 : ℚ) ≤ ((h.successCount : ℚ) + 1) / ((h.totalAttempts : ℚ) + 1) := by
    apply div_nonneg <;> positivity
  have hq1 : ((h.successCount : ℚ) + 1) / ((h.totalAttempts : ℚ) + 1) ≤ 1 := by
    apply div_le_one_of_le₀
    · exact_mod_cast Nat.succ_le_succ hc
    · positivity
  refine ⟨?_, ?_, ?_⟩
  · rw [recordSuccess_successRate]
    have t1 : (0 : ℚ) ≤ h.successRate * 0.7 := by
      apply mul_nonneg h0; norm_num
    have t2 : (0 : ℚ) ≤ ((h.successCount : ℚ) + 1) / ((h.totalAttempts : ℚ) + 1) * 0.3 := by
      apply mul_nonneg hq0; norm_num
    linarith
  · rw [recordSuccess_successRate]
    have t1 : h.successRate * 0.7 ≤ 1 * 0.7 := by
      apply mul_le_mul_of_nonneg_right h1; norm_num
    have t2 : ((h.successCount : ℚ) + 1) / ((h.totalAttempts : ℚ) + 1) * 0.3 ≤ 1 * 0.3 := by
      apply mul_le_mul_of_nonneg_right hq1; norm_num
    linarith
  · rw [recordSuccess_successCount, recordSuccess_totalAttempts]
    omega

theorem healthInv_recordFailure {h : ExtractorHealth} (hi : HealthInv h) :
    HealthInv (recordFailure h) := by
  obtain ⟨h0, h1, hc⟩ := hi
  have hq0 : (0 : ℚ) ≤ (h.successCount : ℚ) / ((h.totalAttempts : ℚ) + 1) := by
    apply div_nonneg <;> positivity
  have hq1 : (h.successCount : ℚ) / ((h.totalAttempts : ℚ) + 1) ≤ 1 := by
    apply div_le_one_of_le₀
    · have : (h.successCount : ℚ) ≤ (h.totalAttempts : ℚ) := by exact_mod_cast hc
      linarith
    · positivity
  refine ⟨?_, ?_, ?_⟩
  · rw [recordFailure_successRate]
    have t1 : (0 : ℚ) ≤ h.successRate * 0.7 := by
      apply mul_nonneg h0; norm_num
    have t2 : (0 : ℚ) ≤ (h.successCount : ℚ) / ((h.totalAttempts : ℚ) + 1) * 0.3 := by
      apply mul_nonneg hq0; norm_num
    linarith
  · rw [recordFailure_successRate]
    have t1 : h.successRate * 0.7 ≤ 1 * 0.7 := by
      apply mul_le_mul_of_nonneg_right h1; norm_num
    have t2 : (h.successCount : ℚ) / ((h.totalAttempts : ℚ) + 1) * 0.3 ≤ 1 * 0.3 := by
      apply mul_le_mul_of_nonneg_right hq1; norm_num
    linarith
  · rw [recordFailure_successCount, recordFailure_totalAttempts]
    omega

theorem healthInv_applyCalls :
    ∀ (l : List Bool) {h : ExtractorHealth}, HealthInv h → HealthInv (applyCalls l h) := by
  intro l
  induction l with
  | nil => intro h hi; simpa [applyCalls] using hi
  | cons b t ih =>
      intro h hi
      have step : HealthInv (if b then recordSuccess h else recordFailure h) := by
        cases b
        · simpa using healthInv_recordFailure hi
        · simpa using healthInv_recordSuccess hi
      simpa [applyCalls, List.foldl_cons] using ih step

theorem healthInv_init (name : String) : HealthInv (initHealth name) := by
  refine ⟨by norm_num [initHealth], by norm_num [initHealth], by norm_num [initHealth]⟩

/-! ### Claim theorems C4 and C5 -/

/-- C4: `recordSuccess()` and `recordFailure()` each increment
`totalAttempts` by exactly one (`recordSuccess` also increments
`successCount` by one), both recompute `successRate` as
`successRate*0.7 + (successCount/totalAttempts)*0.3` over the updated
counters, and starting from the initial record, `N` successes followed by
`M` failures yield `totalAttempts = N+M` and `successCount = N`. -/
theorem record_counters_and_rate (name : String) (h : ExtractorHealth) (N M : Nat) :
    (recordSuccess h).totalAttempts = h.totalAttempts + 1 ∧
    (recordSuccess h).successCount = h.successCount + 1 ∧
    (recordFailure h).totalAttempts = h.totalAttempts + 1 ∧
    (recordFailure h).successCount = h.successCount ∧
    (recordSuccess h).successRate
      = h.successRate * 0.7 + (((h.successCount : ℚ) + 1) / ((h.totalAttempts : ℚ) + 1)) * 0.3 ∧
    (recordFailure h).successRate
      = h.successRate * 0.7 + ((h.successCount : ℚ) / ((h.totalAttempts : ℚ) + 1)) * 0.3 ∧
    (applyCalls (List.replicate N true ++ List.replicate M false) (initHealth name)).totalAttempts
      = N + M ∧
    (applyCalls (List.replicate N true ++ List.replicate M false) (initHealth name)).successCount
      = N := by
  refine ⟨recordSuccess_totalAttempts h, recordSuccess_successCount h,
    recordFailure_totalAttempts h, recordFailure_successCount h,
    recordSuccess_successRate h, recordFailure_successRate h, ?_, ?_⟩
  · rw [applyCalls_totalAttempts]
    simp [initHealth]
  · rw [applyCalls_successCount]
    simp [initHealth, List.count_append, List.count_replicate]

/-! ### The stable descending sort of the router -/

theorem insertDescBy_perm {α β : Type} [LinearOrder β] (key : α → β) (x : α) :
    ∀ l : List α, (insertDescBy key x l).Perm (x :: l) := by
  intro l
  induction l with
  | nil => simp [insertDescBy]
  | cons y ys ih =>
      by_cases hk : key y < key x
      · simp [insertDescBy, hk]
      · simp only [insertDescBy, if_neg hk]
        exact (ih.cons y).trans (List.Perm.swap x y ys)

theorem stableSortDescBy_aux_perm {α β : Type} [LinearOrder β] (key : α → β) :
    ∀ (l acc : List α),
      (l.foldl (fun a x => insertDescBy key x a) acc).Perm (l ++ acc) := by
  intro l
  induction l with
  | nil => intro acc; simp
  | cons x t ih =>
      intro acc
      have h1 := ih (insertDescBy key x acc)
      have h2 : (t ++ insertDescBy key x acc).Perm (t ++ (x :: acc)) :=
        List.Perm.append_left t (insertDescBy_perm key x acc)
      have h3 : (t ++ (x :: acc)).Perm (x :: (t ++ acc)) := List.perm_middle
      simpa using h1.trans (h2.trans h3)

theorem stableSortDescBy_perm {α β : Type} [LinearOrder β] (key : α → β) (l : List α) :
    (stableSortDescBy key l).Perm l := by
  simpa using stableSortDescBy_aux_perm key l []

/-- C5: for every extractor and every finite sequence of
`recordSuccess()` / `recordFailure()` calls starting from the initial record,
`0 ≤ successRate ≤ 1` and `successCount ≤ totalAttempts` hold after every
call (every prefix of a call sequence is itself a call sequence `l`, so
quantifying over `l` covers "after every call"). -/
theorem health_invariant_all_calls (name : String) (l : List Bool) :
    HealthInv (applyCalls l (initHealth name)) :=
  healthInv_applyCalls l (healthInv_init name)

theorem insertDescBy_pairwise (key : Nat → ℚ) (x : Nat) :
    ∀ l : List Nat, l.Pairwise (sortRel key) → (∀ y ∈ l, y < x) →
      (insertDescBy key x l).Pairwise (sortRel key) := by
  intro l
  induction l with
  | nil => intro _ _; simp [insertDescBy, List.pairwise_cons]
  | cons y ys ih =>
      intro hp hlt
      rw [List.pairwise_cons] at hp
      obtain ⟨hy, hys⟩ := hp
      by_cases hk : key y < key x
      · simp only [insertDescBy, if_pos hk]
        rw [List.pairwise_cons]
        refine ⟨?_, ?_⟩
        · intro z hz
          rcases List.mem_cons.mp hz with rfl | hz
          · exact Or.inl hk
          · rcases hy z hz with h | ⟨he, _⟩
            · exact Or.inl (h.trans hk)
            · exact Or.inl (he ▸ hk)
        · rw [List.pairwise_cons]; exact ⟨hy, hys⟩
      · simp only [insertDescBy, if_neg hk]
        rw [List.pairwise_cons]
        refine ⟨?_, ?_⟩
        · intro z hz
          rcases List.mem_cons.mp (((insertDescBy_perm key x ys).mem_iff).mp hz) with rfl | hz
          · rcases lt_or_eq_of_le (le_of_not_lt hk) with h | h
            · exact Or.inl h
            · exact Or.inr ⟨h.symm, hlt y (List.mem_cons_self y ys)⟩
          · exact hy z hz
        · exact ih hys (fun a ha => hlt a (List.mem_cons_of_mem y ha))

theorem stableSortDescBy_aux_pairwise (key : Nat → ℚ) :
    ∀ (l acc : List Nat), l.Pairwise (· < ·) → acc.Pairwise (sortRel key) →
      (∀ a ∈ acc, ∀ b ∈ l, a < b) →
      (l.foldl (fun a x => insertDescBy key x a) acc).Pairwise (sortRel key) := by
  intro l
  induction l with
  | nil => intro acc _ hacc _; simpa using hacc
  | cons x t ih =>
      intro acc hl hacc hcross
      rw [List.pairwise_cons] at hl
      obtain ⟨hx, ht⟩ := hl
      simp only [List.foldl_cons]
      refine ih (insertDescBy key x acc) ht ?_ ?_
      · exact insertDescBy_pairwise key x acc hacc
          (fun a ha => hcross a ha x (List.mem_cons_self x t))
      · intro a ha b hb
        rcases List.mem_cons.mp (((insertDescBy_perm key x acc).mem_iff).mp ha) with rfl | ha
        · exact hx b hb
        · exact hcross a ha b (List.mem_cons_of_mem x hb)

theorem getSortedExtractors_pairwise (es : List ExtractorState) (url : String) :
    (getSortedExtractors es url).Pairwise (sortRel (rateAt es)) := by
  unfold getSortedExtractors stableSortDescBy
  apply stableSortDescBy_aux_pairwise
  · exact List.Pairwise.sublist (List.filter_sublist _) (List.pairwise_lt_range _)
  · simp
  · simp

theorem getSortedExtractors_nodup (es : List ExtractorState) (url : String) :
    (getSortedExtractors es url).Nodup :=
  (stableSortDescBy_perm (rateAt es) _).symm.nodup ((List.nodup_range _).filter _)

theorem mem_getSortedExtractors {es : List ExtractorState} {url : String} {i : Nat} :
    i ∈ getSortedExtractors es url ↔
      i < es.length ∧ capableIdx es url i = true := by
  unfold getSortedExtractors
  rw [(stableSortDescBy_perm (rateAt es) _).mem_iff]
  simp [List.mem_filter, List.mem_range]

/-- C6: the router's ordering step is a pure, deterministic function of the
URL and the health snapshot (it is a Lean function of exactly those two
inputs, so two evaluations over the same snapshot agree definitionally); it
keeps exactly the indices whose extractor passes `canHandle(url) &&
isValidUrl(url)`, and it orders them so that a strictly larger `successRate`
comes first and equal rates keep registration (index) order. -/
theorem getSortedExtractors_ordering (es : List ExtractorState) (url : String) :
    (getSortedExtractors es url).Perm
        ((List.range es.length).filter (capableIdx es url)) ∧
    (getSortedExtractors es url).Pairwise
        (fun a b => rateAt es b < rateAt es a ∨ (rateAt es a = rateAt es b ∧ a < b)) :=
  ⟨stableSortDescBy_perm _ _, getSortedExtractors_pairwise es url⟩

/-! ### Step lemmas about extract / extractBuffer -/

theorem extract_infoError {s : ExtractorState} {url msg : String}
    (hc : s.backend.canHandle url = true) (hv : s.backend.isValidUrl url = true)
    (hm : s.backend.getVideoInfo s.infoCalls = .error msg) :
    extract s url = (failResult s.backend.name msg,
      { s with infoCalls := s.infoCalls + 1, health := recordFailure s.health }) := by
  unfold extract
  simp [hc, hv, hm]

theorem extractBuffer_infoError {s : ExtractorState} {url msg : String}
    (hc : s.backend.canHandle url = true) (hv : s.backend.isValidUrl url = true)
    (hm : s.backend.getVideoInfo s.infoCalls = .error msg) :
    extractBuffer s url = (failResult s.backend.name msg,
      { s with infoCalls := s.infoCalls + 1, health := recordFailure s.health }) := by
  unfold extractBuffer
  simp [hc, hv, hm]

theorem extractBuffer_bufferError {s : ExtractorState} {url msg : String}
    {vi : YouTubeVideoInfo}
    (hc : s.backend.canHandle url = true) (hv : s.backend.isValidUrl url = true)
    (hm : s.backend.getVideoInfo s.infoCalls = .ok vi)
    (hb : s.backend.downloadAudioBuffer s.bufferCalls = .error msg) :
    extractBuffer s url = (failResult s.backend.name msg,
      { s with
        infoCalls := s.infoCalls + 1
        bufferCalls := s.bufferCalls + 1
        health := recordFailure s.health }) := by
  unfold extractBuffer
  simp [hc, hv, hm, hb]

/-! ### All-backends-fail behaviour of the three fallback loops -/

theorem elim_getLast?_cons {α β : Type} :
    ∀ (t : List α) (j : α) (d1 d2 : β) (f : α → β),
      ((j :: t).getLast?).elim d1 f = ((j :: t).getLast?).elim d2 f := by
  intro t
  induction t with
  | nil => intro j d1 d2 f; rfl
  | cons a t ih => intro j d1 d2 f; exact ih a d1 d2 f

theorem infoLoop_allFail (url : String) (errf : Nat → String) :
    ∀ (idxs : List Nat) (es : List ExtractorState) (lastErr : Option String),
      (∀ i ∈ idxs, ∃ e, es[i]? = some e ∧ e.backend.canHandle url = true ∧
        e.backend.isValidUrl url = true ∧
        ∀ n, e.backend.getVideoInfo n = .error (errf i)) →
      (infoLoop url idxs es lastErr).1 =
        .error ((idxs.getLast?).elim
          (lastErr.getD "All extractors failed to get video information") errf) := by
  intro idxs
  induction idxs with
  | nil => intro es lastErr _; simp [infoLoop]
  | cons i rest ih =>
      intro es lastErr h
      obtain ⟨e, he, hc, hv, hm⟩ := h i (List.mem_cons_self i rest)
      have hilen : i < es.length := (List.getElem?_eq_some.mp he).1
      have hstep := extract_infoError hc hv (hm e.infoCalls)
      have hpres : ∀ k ∈ rest,
          ∃ e2, (es.set i { e with
              infoCalls := e.infoCalls + 1
              health := recordFailure e.health })[k]? = some e2 ∧
            e2.backend.canHandle url = true ∧ e2.backend.isValidUrl url = true ∧
            ∀ n, e2.backend.getVideoInfo n = .error (errf k) := by
        intro k hk
        obtain ⟨e2, he2, hc2, hv2, hm2⟩ := h k (List.mem_cons_of_mem i hk)
        by_cases hki : i = k
        · subst hki
          refine ⟨{ e with
              infoCalls := e.infoCalls + 1
              health := recordFailure e.health }, ?_, hc, hv, hm⟩
          exact List.getElem?_set_self hilen
        · exact ⟨e2, by rw [List.getElem?_set_ne hki]; exact he2, hc2, hv2, hm2⟩
      have hrec := ih (es.set i { e with
          infoCalls := e.infoCalls + 1
          health := recordFailure e.health }) (some (errf i)) hpres
      simp only [Option.getD_some] at hrec
      have hgoal : infoLoop url (i :: rest) es lastErr
          = infoLoop url rest (es.set i { e with
              infoCalls := e.infoCalls + 1
              health := recordFailure e.health }) (some (errf i)) := by
        simp [infoLoop, he, hstep, failResult]
      rw [hgoal, hrec]
      cases rest with
      | nil => rfl
      | cons j t => exact congrArg Except.error (elim_getLast?_cons t j _ _ errf)

/-- One step of `audioUrlLoop` when the backend's `getAudioUrl` rejects:
record a failure, remember the message, continue. -/
theorem audioUrlLoop_allFail (url : String) (errg : Nat → String) :
    ∀ (idxs : List Nat) (es : List ExtractorState) (lastErr : Option String),
      (∀ i ∈ idxs, ∃ e, es[i]? = some e ∧
        ∀ n, e.backend.getAudioUrl n = .error (errg i)) →
      (audioUrlLoop url idxs es lastErr).1 =
        .error ((idxs.getLast?).elim
          (lastErr.getD "All extractors failed to get audio URL") errg) := by
  intro idxs
  induction idxs with
  | nil => intro es lastErr _; simp [audioUrlLoop]
  | cons i rest ih =>
      intro es lastErr h
      obtain ⟨e, he, hm⟩ := h i (List.mem_cons_self i rest)
      have hilen : i < es.length := (List.getElem?_eq_some.mp he).1
      have hpres : ∀ k ∈ rest,
          ∃ e2, (es.set i { e with
              audioUrlCalls := e.audioUrlCalls + 1
              health := recordFailure e.health })[k]? = some e2 ∧
            ∀ n, e2.backend.getAudioUrl n = .error (errg k) := by
        intro k hk
        obtain ⟨e2, he2, hm2⟩ := h k (List.mem_cons_of_mem i hk)
        by_cases hki : i = k
        · subst hki
          refine ⟨{ e with
              audioUrlCalls := e.audioUrlCalls + 1
              health := recordFailure e.health }, ?_, hm⟩
          exact List.getElem?_set_self hilen
        · exact ⟨e2, by rw [List.getElem?_set_ne hki]; exact he2, hm2⟩
      have hrec := ih (es.set i { e with
          audioUrlCalls := e.audioUrlCalls + 1
          health := recordFailure e.health }) (some (errg i)) hpres
      simp only [Option.getD_some] at hrec
      have hgoal : audioUrlLoop url (i :: rest) es lastErr
          = audioUrlLoop url rest (es.set i { e with
              audioUrlCalls := e.audioUrlCalls + 1
              health := recordFailure e.health }) (some (errg i)) := by
        simp [audioUrlLoop, he, hm e.audioUrlCalls]
      rw [hgoal, hrec]
      cases rest with
      | nil => rfl
      | cons j t => exact congrArg Except.error (elim_getLast?_cons t j _ _ errg)

theorem bufferLoop_allFail (url : String) (errf : Nat → String) :
    ∀ (idxs : List Nat) (es : List ExtractorState) (lastErr : Option String),
      idxs.Nodup →
      (∀ i ∈ idxs, ∃ e, es[i]? = some e ∧ e.backend.canHandle url = true ∧
        e.backend.isValidUrl url = true ∧
        (∀ n, ∃ v, e.backend.getVideoInfo n = .ok v) ∧
        (∀ n, e.backend.downloadAudioBuffer n = .error (errf i))) →
      (bufferLoop url idxs es lastErr).1 =
        .error ((idxs.getLast?).elim
          (lastErr.getD "All extractors failed to download audio") errf) ∧
      (∀ j, j ∉ idxs → ((bufferLoop url idxs es lastErr).2)[j]? = es[j]?) ∧
      (∀ i ∈ idxs, ∀ e, es[i]? = some e →
        ((bufferLoop url idxs es lastErr).2)[i]? = some { e with
          infoCalls := e.infoCalls + 1
          bufferCalls := e.bufferCalls + 1
          health := recordFailure e.health }) := by
  intro idxs
  induction idxs with
  | nil =>
      intro es lastErr _ _
      refine ⟨by simp [bufferLoop], by intro j _; simp [bufferLoop], by intro i hi; cases hi⟩
  | cons i rest ih =>
      intro es lastErr hnd h
      rw [List.nodup_cons] at hnd
      obtain ⟨hnotmem, hndrest⟩ := hnd
      obtain ⟨e, he, hc, hv, hok, hbuf⟩ := h i (List.mem_cons_self i rest)
      have hilen : i < es.length := (List.getElem?_eq_some.mp he).1
      obtain ⟨vi, hvi⟩ := hok e.infoCalls
      have hstep := extractBuffer_bufferError hc hv hvi
        (hbuf e.bufferCalls)
      have hgoal : bufferLoop url (i :: rest) es lastErr
          = bufferLoop url rest (es.set i { e with
              infoCalls := e.infoCalls + 1
              bufferCalls := e.bufferCalls + 1
              health := recordFailure e.health }) (some (errf i)) := by
        simp [bufferLoop, he, hstep, failResult]
      have hpres : ∀ k ∈ rest,
          ∃ e2, (es.set i { e with
              infoCalls := e.infoCalls + 1
              bufferCalls := e.bufferCalls + 1
              health := recordFailure e.health })[k]? = some e2 ∧
            e2.backend.canHandle url = true ∧ e2.backend.isValidUrl url = true ∧
            (∀ n, ∃ v, e2.backend.getVideoInfo n = .ok v) ∧
            (∀ n, e2.backend.downloadAudioBuffer n = .error (errf k)) := by
        intro k hk
        obtain ⟨e2, he2, hc2, hv2, hok2, hb2⟩ := h k (List.mem_cons_of_mem i hk)
        have hki : i ≠ k := fun hik => hnotmem (hik ▸ hk)
        exact ⟨e2, by rw [List.getElem?_set_ne hki]; exact he2, hc2, hv2, hok2, hb2⟩
      obtain ⟨R1, R2, R3⟩ := ih (es.set i { e with
          infoCalls := e.infoCalls + 1
          bufferCalls := e.bufferCalls + 1
          health := recordFailure e.health }) (some (errf i)) hndrest hpres
      simp only [Option.getD_some] at R1
      refine ⟨?_, ?_, ?_⟩
      · rw [hgoal, R1]
        cases rest with
        | nil => rfl
        | cons j t => exact congrArg Except.error (elim_getLast?_cons t j _ _ errf)
      · intro j hj
        have hjne : i ≠ j := fun hij => hj (hij ▸ List.mem_cons_self i rest)
        have hjrest : j ∉ rest := fun hr => hj (List.mem_cons_of_mem i hr)
        rw [hgoal, R2 j hjrest, List.getElem?_set_ne hjne]
      · intro k hk e0 he0
        rcases List.mem_cons.mp hk with rfl | hkrest
        · have he0e : e0 = e := by
            rw [he] at he0; exact (Option.some.inj he0).symm
          subst he0e
          rw [hgoal, R2 k hnotmem, List.getElem?_set_self hilen]
        · have hki : i ≠ k := fun hik => hnotmem (hik ▸ hkrest)
          have : (es.set i { e with
              infoCalls := e.infoCalls + 1
              bufferCalls := e.bufferCalls + 1
              health := recordFailure e.health })[k]? = some e0 := by
            rw [List.getElem?_set_ne hki]; exact he0
          rw [hgoal]
          exact R3 k hkrest e0 this

theorem isValid_sorted_ne_nil {es : List ExtractorState} {url : String}
    (hvalid : isValidYouTubeUrl es url = true) :
    getSortedExtractors es url ≠ [] := by
  unfold isValidYouTubeUrl at hvalid
  rw [List.any_eq_true] at hvalid
  obtain ⟨e, hmem, hcap⟩ := hvalid
  obtain ⟨i, hi⟩ := List.mem_iff_getElem?.mp hmem
  intro hnil
  have hmem2 : i ∈ getSortedExtractors es url :=
    mem_getSortedExtractors.mpr ⟨(List.getElem?_eq_some.mp hi).1, by
      unfold capableIdx; rw [hi]; exact hcap⟩
  rw [hnil] at hmem2
  exact absurd hmem2 (List.not_mem_nil i)

/-- Extract the per-index data needed by the loop lemmas from membership in
the sorted capable list. -/
theorem sorted_mem_capable {es : List ExtractorState} {url : String} {i : Nat}
    (hi : i ∈ getSortedExtractors es url) :
    ∃ e, es[i]? = some e ∧ e.backend.canHandle url = true ∧
      e.backend.isValidUrl url = true := by
  obtain ⟨hlen, hcap⟩ := mem_getSortedExtractors.mp hi
  unfold capableIdx at hcap
  cases hei : es[i]? with
  | none => rw [hei] at hcap; cases hcap
  | some e =>
      rw [hei] at hcap
      rw [Bool.and_eq_true] at hcap
      exact ⟨e, rfl, hcap.1, hcap.2⟩

/-- C7: when every capable extractor fails, `extractVideoInfo` and
`getAudioUrl` surface a single terminal error carrying the message of the
last-tried (lowest-ranked) extractor's failure — not a generic placeholder;
failures of earlier extractors in the chain are not propagated (the loop
continues past them, and only the final message surfaces). -/
theorem router_allFail_last_error (es : List ExtractorState) (url : String)
    (errf errg : Nat → String)
    (horacles : ∀ (i : Nat) (e : ExtractorState), es[i]? = some e →
      (∀ n, e.backend.getVideoInfo n = Except.error (errf i)) ∧
      (∀ n, e.backend.getAudioUrl n = Except.error (errg i)))
    (hvalid : isValidYouTubeUrl es url = true) :
    getSortedExtractors es url ≠ [] ∧
    ∀ j, (getSortedExtractors es url).getLast? = some j →
      (extractVideoInfo es url).1 = .error (errf j) ∧
      (getAudioUrl es url).1 = .error (errg j) := by
  refine ⟨isValid_sorted_ne_nil hvalid, ?_⟩
  intro j hj
  constructor
  · have h1 := infoLoop_allFail url errf (getSortedExtractors es url) es none ?_
    · rw [extractVideoInfo, hvalid]
      simp only [Bool.true_eq_false, if_false]
      rw [h1, hj]
      rfl
    · intro i hi
      obtain ⟨e, he, hc, hv⟩ := sorted_mem_capable hi
      exact ⟨e, he, hc, hv, (horacles i e he).1⟩
  · have h2 := audioUrlLoop_allFail url errg (getSortedExtractors es url) es none ?_
    · rw [getAudioUrl, hvalid]
      simp only [Bool.true_eq_false, if_false]
      rw [h2, hj]
      rfl
    · intro i hi
      obtain ⟨e, he, _, _⟩ := sorted_mem_capable hi
      exact ⟨e, he, (horacles i e he).2⟩

/-- C2 (amended): for every URL accepted by the validity check,
`downloadAudioAsBuffer` attempts each capable extractor's `extractBuffer`
exactly once before moving to the next when the extraction fails:
`extractBuffer` converts every error into a failure result, and on a failure
result the router's `else` arm runs `break`, leaving the retry loop after its
first iteration (the 3-attempt retry with backoff is reachable only from the
catch arm, i.e. from a rejected `extractBuffer`, which never happens); with
all capable extractors failing, the surfaced error is the last one's. -/
theorem downloadAudioAsBuffer_single_attempt (es : List ExtractorState) (url : String)
    (errf : Nat → String)
    (horacles : ∀ (i : Nat) (e : ExtractorState), es[i]? = some e →
      (∀ n, ∃ v, e.backend.getVideoInfo n = Except.ok v) ∧
      (∀ n, e.backend.downloadAudioBuffer n = Except.error (errf i)))
    (hvalid : isValidYouTubeUrl es url = true) :
    (∀ j, (getSortedExtractors es url).getLast? = some j →
      (downloadAudioAsBuffer es url).1 = .error (errf j)) ∧
    (∀ i ∈ getSortedExtractors es url, ∀ e, es[i]? = some e →
      ((downloadAudioAsBuffer es url).2)[i]? = some { e with
        infoCalls := e.infoCalls + 1
        bufferCalls := e.bufferCalls + 1
        health := recordFailure e.health }) := by
  have hhyp : ∀ i ∈ getSortedExtractors es url, ∃ e, es[i]? = some e ∧
      e.backend.canHandle url = true ∧ e.backend.isValidUrl url = true ∧
      (∀ n, ∃ v, e.backend.getVideoInfo n = .ok v) ∧
      (∀ n, e.backend.downloadAudioBuffer n = .error (errf i)) := by
    intro i hi
    obtain ⟨e, he, hc, hv⟩ := sorted_mem_capable hi
    exact ⟨e, he, hc, hv, (horacles i e he).1, (horacles i e he).2⟩
  obtain ⟨R1, R2, R3⟩ := bufferLoop_allFail url errf (getSortedExtractors es url) es none
    (getSortedExtractors_nodup es url) hhyp
  constructor
  · intro j hj
    rw [downloadAudioAsBuffer, hvalid]
    simp only [Bool.true_eq_false, if_false]
    rw [R1, hj]
    rfl
  · intro i hi e he
    rw [downloadAudioAsBuffer, hvalid]
    simp only [Bool.true_eq_false, if_false]
    exact R3 i hi e he

/-! ### Bounded monitor histories -/

theorem addAlert_metrics (m : HealthMonitor) (a : HealthAlert) :
    (addAlert m a).metrics = m.metrics := by
  simp [addAlert]

theorem addAlert_alerts_le (m : HealthMonitor) (a : HealthAlert) :
    (addAlert m a).alerts.length ≤ maxAlertsHistory := by
  unfold addAlert
  by_cases hlen : maxAlertsHistory < (m.alerts ++ [a]).length
  · simp only [if_pos hlen, List.length_drop]
    omega
  · simp only [if_neg hlen]
    omega

theorem checkForAlerts_metrics (m : HealthMonitor) (h : ExtractorHealth) (ts : Nat) :
    (checkForAlerts m h ts).metrics = m.metrics := by
  simp only [checkForAlerts]
  cases hp : getLatestMetricForExtractor m h.name
  all_goals repeat' split
  all_goals simp [addAlert_metrics]

theorem checkForAlerts_alerts_le {m : HealthMonitor} (h : ExtractorHealth) (ts : Nat)
    (hle : m.alerts.length ≤ maxAlertsHistory) :
    (checkForAlerts m h ts).alerts.length ≤ maxAlertsHistory := by
  simp only [checkForAlerts]
  cases hp : getLatestMetricForExtractor m h.name
  all_goals repeat' split
  all_goals first
    | exact hle
    | exact addAlert_alerts_le _ _

theorem recordMetrics_fold (ts : Nat) :
    ∀ (hd : List ExtractorHealth) (m : HealthMonitor),
      (hd.foldl (fun acc h =>
        checkForAlerts { acc with metrics := acc.metrics ++ [mkMetric h ts] } h ts) m).metrics
          = m.metrics ++ hd.map (fun h => mkMetric h ts) ∧
      (m.alerts.length ≤ maxAlertsHistory →
        (hd.foldl (fun acc h =>
          checkForAlerts { acc with metrics := acc.metrics ++ [mkMetric h ts] } h ts)
            m).alerts.length ≤ maxAlertsHistory) := by
  intro hd
  induction hd with
  | nil => intro m; refine ⟨by simp, fun hle => by simpa using hle⟩
  | cons h t ih =>
      intro m
      simp only [List.foldl_cons, List.map_cons]
      obtain ⟨ihm, iha⟩ :=
        ih (checkForAlerts { m with metrics := m.metrics ++ [mkMetric h ts] } h ts)
      constructor
      · rw [ihm, checkForAlerts_metrics]
        simp
      · intro hle
        exact iha (checkForAlerts_alerts_le h ts (by simpa using hle))

/-- C9: the monitor's histories are bounded: one `recordMetrics` pass leaves
at most `maxMetricsHistory` (1000) metrics and — provided the alert history
respected its cap before, as it does along any run from the empty monitor —
at most `maxAlertsHistory` (100) alerts; the metric history kept is a suffix
of old-metrics ++ new-snapshots of length `min (old + new) cap`, i.e. the
oldest entries are evicted exactly when the cap would be exceeded, leaving
size at the cap. -/
theorem recordMetrics_bounded (m : HealthMonitor) (hd : List ExtractorHealth) (ts : Nat)
    (halerts : m.alerts.length ≤ maxAlertsHistory) :
    (recordMetrics m hd ts).metrics.length
      = min (m.metrics.length + hd.length) maxMetricsHistory ∧
    (recordMetrics m hd ts).metrics.IsSuffix
      (m.metrics ++ hd.map (fun h => mkMetric h ts)) ∧
    (recordMetrics m hd ts).alerts.length ≤ maxAlertsHistory := by
  obtain ⟨hm, ha⟩ := recordMetrics_fold ts hd m
  have hlen : (hd.foldl (fun acc h =>
      checkForAlerts { acc with metrics := acc.metrics ++ [mkMetric h ts] } h ts) m).metrics.length
        = m.metrics.length + hd.length := by
    rw [hm]; simp
  unfold recordMetrics
  by_cases hc : maxMetricsHistory < (hd.foldl (fun acc h =>
      checkForAlerts { acc with metrics := acc.metrics ++ [mkMetric h ts] } h ts) m).metrics.length
  · simp only [if_pos hc]
    refine ⟨?_, ?_, ?_⟩
    · simp only [List.length_drop, hlen]
      rw [hlen] at hc
      omega
    · rw [← hm]
      exact List.drop_suffix _ _
    · exact ha halerts
  · simp only [if_neg hc]
    refine ⟨?_, ?_, ?_⟩
    · rw [hlen]
      rw [hlen] at hc
      omega
    · rw [← hm]
    · exact ha halerts

/-! ### Totality and health accounting of extract / extractBuffer -/

/-- C8: `extract(url)` never raises (in the embedding it is a total function:
the source wraps its whole body in try/catch, so every throw becomes the
failure result); on success the flag is `true` and both `videoInfo` and
`audioUrl` are populated, on failure the flag is `false` and `error` is
populated, and each call records exactly one success or exactly one failure
into the extractor's own health record (`totalAttempts` grows by exactly one,
`successCount` by one exactly on success). -/
theorem extract_total_spec (s : ExtractorState) (url : String) :
    ((extract s url).1.success = true →
      (extract s url).1.videoInfo.isSome ∧ (extract s url).1.audioUrl.isSome) ∧
    ((extract s url).1.success = false → (extract s url).1.error.isSome) ∧
    (extract s url).2.health.totalAttempts = s.health.totalAttempts + 1 ∧
    ((extract s url).1.success = true →
      (extract s url).2.health.successCount = s.health.successCount + 1) ∧
    ((extract s url).1.success = false →
      (extract s url).2.health.successCount = s.health.successCount) := by
  unfold extract
  repeat' split
  all_goals
    simp [failResult, recordFailure_totalAttempts, recordFailure_successCount,
      recordSuccess_totalAttempts, recordSuccess_successCount]

/-- Both guard failures of `extract` / `extractBuffer` (cannot-handle and
invalid-format) are thrown before any network method runs and are caught by
the catch arm, which records a failure; no call counter moves. -/
theorem extract_notCapable {s : ExtractorState} {url : String}
    (hbad : s.backend.canHandle url = false ∨ s.backend.isValidUrl url = false) :
    (extract s url).1.success = false ∧
    (extract s url).2 = { s with health := recordFailure s.health } ∧
    (extractBuffer s url).1.success = false ∧
    (extractBuffer s url).2 = { s with health := recordFailure s.health } := by
  rcases hbad with h | h
  · simp [extract, extractBuffer, h, failResult]
  · by_cases hc : s.backend.canHandle url = false
    · simp [extract, extractBuffer, hc, failResult]
    · rw [Bool.not_eq_false] at hc
      simp [extract, extractBuffer, hc, h, failResult]

/-- C10: on a URL the extractor cannot handle (or that fails its stricter
validation), `extract` and `extractBuffer` still record a failure into the
health record — `totalAttempts` grows by one with `successCount` unchanged,
no metadata/audio oracle is consulted (call counters unchanged) — and
`successRate` strictly drops whenever it exceeded the cumulative ratio
`successCount / (totalAttempts + 1)`; merely invoking `extract` on an
invalid URL thus degrades the extractor's health. -/
theorem extract_invalid_url_records_failure (s : ExtractorState) (url : String)
    (hbad : s.backend.canHandle url = false ∨ s.backend.isValidUrl url = false) :
    (extract s url).1.success = false ∧
    (extract s url).2.health.totalAttempts = s.health.totalAttempts + 1 ∧
    (extract s url).2.health.successCount = s.health.successCount ∧
    (extract s url).2.infoCalls = s.infoCalls ∧
    (extract s url).2.audioUrlCalls = s.audioUrlCalls ∧
    (extractBuffer s url).1.success = false ∧
    (extractBuffer s url).2.health.totalAttempts = s.health.totalAttempts + 1 ∧
    (extractBuffer s url).2.bufferCalls = s.bufferCalls ∧
    ((s.health.successCount : ℚ) / ((s.health.totalAttempts : ℚ) + 1) < s.health.successRate →
      (extract s url).2.health.successRate < s.health.successRate) := by
  obtain ⟨e1, e2, b1, b2⟩ := extract_notCapable hbad
  refine ⟨e1, ?_, ?_, ?_, ?_, b1, ?_, ?_, ?_⟩
  · rw [e2]; exact recordFailure_totalAttempts s.health
  · rw [e2]; exact recordFailure_successCount s.health
  · rw [e2]
  · rw [e2]
  · rw [b2]; exact recordFailure_totalAttempts s.health
  · rw [b2]
  · intro hlt
    rw [e2]
    show (recordFailure s.health).successRate < s.health.successRate
    rw [recordFailure_successRate]
    nlinarith [hlt]

/-! ### Concrete runs: the monitor alert sequence (claim C1) -/

/-- C1 (counterexample): feeding the spec's successRate sequence
0.9, 0.65, 0.65, 0.2, 0.5 through five `recordMetrics()` passes does NOT
produce the three alerts degraded / critical / recovered the claim
requires. -/
theorem c1_run_not_three_alerts :
    c1Run.alerts.map (fun a => a.type)
      ≠ [AlertType.degraded, AlertType.critical, AlertType.recovered] := by
  norm_num [c1Run, recordMetrics, checkForAlerts, getLatestMetricForExtractor,
    addAlert, mkMetric, mkAlert, rateHealth, emptyMonitor, degradedThreshold,
    criticalThreshold, maxMetricsHistory, maxAlertsHistory, stableSortDescBy,
    insertDescBy]
  simp

/-- C1 (amended): the run produces no alerts at all.  `recordMetrics` pushes
the new snapshot into the metric history BEFORE calling `checkForAlerts`
(part_002 lines 158-159), so `getLatestMetricForExtractor` — which takes the
metric with the greatest timestamp — returns the just-pushed sample itself,
every edge-trigger comparison compares the sample with itself, and no
condition can fire.  (Independently, the claimed `recovered` alert at 0.5
contradicts the code's own rule even with the intended prior sample: the
recovered branch requires the new rate to be ≥ 0.7.) -/
theorem c1_run_no_alerts : c1Run.alerts = [] := by
  norm_num [c1Run, recordMetrics, checkForAlerts, getLatestMetricForExtractor,
    addAlert, mkMetric, mkAlert, rateHealth, emptyMonitor, degradedThreshold,
    criticalThreshold, maxMetricsHistory, maxAlertsHistory, stableSortDescBy,
    insertDescBy]

/-! ### Concrete runs: single-attempt fallback (claim C2) -/

/-- C2 (counterexample): a single always-failing extractor (metadata resolves,
byte download always rejects) has its `downloadAudioBuffer` invoked exactly
once — not 3 times — by one `downloadAudioAsBuffer` request. -/
theorem c2_single_attempt_not_three :
    ((downloadAudioAsBuffer [failingBufferExtractor] "u").2[0]?.map
      (fun e => e.bufferCalls)) = some 1 ∧
    ((downloadAudioAsBuffer [failingBufferExtractor] "u").2[0]?.map
      (fun e => e.bufferCalls)) ≠ some 3 := by
  norm_num [downloadAudioAsBuffer, isValidYouTubeUrl, getSortedExtractors,
    stableSortDescBy, insertDescBy, capableIdx, rateAt, bufferLoop, extractBuffer,
    failingBufferExtractor, failingBufferBackend, failResult, initHealth,
    List.range_succ]

/-- Witness for the amended C2 theorem at a concrete input: the lone failing
extractor is attempted exactly once (both call counters advance by one, one
failure is recorded) and its message is surfaced. -/
theorem c2_single_attempt_witness :
    (downloadAudioAsBuffer [failingBufferExtractor] "u").1 = .error "boom" ∧
    ((downloadAudioAsBuffer [failingBufferExtractor] "u").2)[0]?
      = some { failingBufferExtractor with
          infoCalls := failingBufferExtractor.infoCalls + 1
          bufferCalls := failingBufferExtractor.bufferCalls + 1
          health := recordFailure failingBufferExtractor.health } := by
  have h := downloadAudioAsBuffer_single_attempt [failingBufferExtractor] "u"
    (fun _ => "boom") ?_ (by rfl)
  · refine ⟨h.1 0 (by rfl), h.2 0 ?_ failingBufferExtractor (by rfl)⟩
    show (0 : Nat) ∈ getSortedExtractors [failingBufferExtractor] "u"
    norm_num [getSortedExtractors, stableSortDescBy, insertDescBy, capableIdx,
      rateAt, failingBufferExtractor, failingBufferBackend, List.range_succ]
  · intro i e he
    cases i with
    | zero =>
        have he2 : e = failingBufferExtractor := by simpa using he.symm
        subst he2
        exact ⟨fun n => ⟨default, rfl⟩, fun n => rfl⟩
    | succ n => simp at he

/-! ### Concrete runs: zero-length buffers (claim C3) -/

/-- C3 (counterexample): an extractor that succeeds with a zero-length buffer
is NOT treated as a failure: its empty buffer is returned to the caller, and
the second registered extractor (which would return a non-empty buffer) is
never consulted. -/
theorem c3_empty_buffer_returned :
    (downloadAudioAsBuffer [emptyBufferExtractor, fullBufferExtractor] "u").1
      = .ok [] ∧
    (downloadAudioAsBuffer [emptyBufferExtractor, fullBufferExtractor] "u").1
      ≠ .ok [1, 2, 3] := by
  norm_num [downloadAudioAsBuffer, isValidYouTubeUrl, getSortedExtractors,
    stableSortDescBy, insertDescBy, capableIdx, rateAt, bufferLoop, extractBuffer,
    emptyBufferExtractor, emptyBufferBackend, fullBufferExtractor, fullBufferBackend,
    failResult, initHealth, List.range_succ]
  simp

/-- C3 (amended): a success result with a DEFINED audio buffer — zero-length
included — short-circuits the fallback and is returned to the caller: a
`Buffer` object is truthy in JavaScript even when empty, so
`result.success && result.audioBuffer` holds.  Only a failure result (or an
undefined buffer field) moves the router to the next attempt/extractor. -/
theorem downloadAudioAsBuffer_returns_first_buffer (es : List ExtractorState)
    (url : String) (i : Nat) (e : ExtractorState) (b : List Nat)
    (hvalid : isValidYouTubeUrl es url = true)
    (hhead : (getSortedExtractors es url).head? = some i)
    (hi : es[i]? = some e)
    (hsucc : (extractBuffer e url).1.success = true)
    (hbuf : (extractBuffer e url).1.audioBuffer = some b) :
    (downloadAudioAsBuffer es url).1 = .ok b := by
  rw [downloadAudioAsBuffer, hvalid]
  simp only [Bool.true_eq_false, if_false]
  obtain ⟨rest, hrest⟩ : ∃ rest, getSortedExtractors es url = i :: rest := by
    cases hs : getSortedExtractors es url with
    | nil => rw [hs] at hhead; cases hhead
    | cons a t =>
        rw [hs] at hhead
        simp only [List.head?_cons] at hhead
        exact ⟨t, by rw [Option.some.inj hhead]⟩
  rw [hrest]
  simp only [bufferLoop, hi]
  simp [hsucc, hbuf]

/-- Witness for the amended C3 theorem: a zero-length buffer produced by the
first-ranked extractor is returned to the caller as-is. -/
theorem c3_empty_buffer_witness :
    (downloadAudioAsBuffer [emptyBufferExtractor] "u").1 = .ok [] :=
  downloadAudioAsBuffer_returns_first_buffer [emptyBufferExtractor] "u" 0
    emptyBufferExtractor [] (by rfl) (by rfl) (by rfl) (by rfl) (by rfl)

/-! ### Remaining witnesses -/

/-- Witness for C7 at a concrete input: with one capable extractor whose
metadata and audio-URL calls always reject, both router operations surface
that extractor's own messages. -/
theorem c7_last_error_witness :
    (extractVideoInfo [failingInfoExtractor] "u").1 = .error "meta down" ∧
    (getAudioUrl [failingInfoExtractor] "u").1 = .error "stream down" := by
  have h := router_allFail_last_error [failingInfoExtractor] "u"
    (fun _ => "meta down") (fun _ => "stream down") ?_ (by rfl)
  · exact h.2 0 (by rfl)
  · intro i e he
    cases i with
    | zero =>
        have he2 : e = failingInfoExtractor := by simpa using he.symm
        subst he2
        exact ⟨fun n => rfl, fun n => rfl⟩
    | succ n => simp at he

/-- Witness for C8 at a concrete input. -/
theorem c8_extract_total_witness :
    ((extract failingInfoExtractor "u").1.success = true →
      (extract failingInfoExtractor "u").1.videoInfo.isSome ∧
      (extract failingInfoExtractor "u").1.audioUrl.isSome) ∧
    ((extract failingInfoExtractor "u").1.success = false →
      (extract failingInfoExtractor "u").1.error.isSome) ∧
    (extract failingInfoExtractor "u").2.health.totalAttempts
      = failingInfoExtractor.health.totalAttempts + 1 ∧
    ((extract failingInfoExtractor "u").1.success = true →
      (extract failingInfoExtractor "u").2.health.successCount
        = failingInfoExtractor.health.successCount + 1) ∧
    ((extract failingInfoExtractor "u").1.success = false →
      (extract failingInfoExtractor "u").2.health.successCount
        = failingInfoExtractor.health.successCount) :=
  extract_total_spec failingInfoExtractor "u"

/-- Witness for C9 at a concrete input. -/
theorem c9_bounded_witness :
    emptyMonitor.alerts.length ≤ maxAlertsHistory ∧
    ((recordMetrics emptyMonitor [rateHealth 0.9] 0).metrics.length
        = min (emptyMonitor.metrics.length + [rateHealth 0.9].length)
            maxMetricsHistory ∧
      (recordMetrics emptyMonitor [rateHealth 0.9] 0).metrics.IsSuffix
        (emptyMonitor.metrics ++ [rateHealth 0.9].map (fun h => mkMetric h 0)) ∧
      (recordMetrics emptyMonitor [rateHealth 0.9] 0).alerts.length
        ≤ maxAlertsHistory) :=
  ⟨by simp [emptyMonitor, maxAlertsHistory],
   recordMetrics_bounded emptyMonitor [rateHealth 0.9] 0
     (by simp [emptyMonitor, maxAlertsHistory])⟩

/-- Witness for C10 at a concrete input: an extractor whose `canHandle`
rejects every URL records a failure when probed with `extract`. -/
theorem c10_invalid_url_witness :
    (incapableExtractor.backend.canHandle "u" = false ∨
      incapableExtractor.backend.isValidUrl "u" = false) ∧
    ((extract incapableExtractor "u").1.success = false ∧
      (extract incapableExtractor "u").2.health.totalAttempts
        = incapableExtractor.health.totalAttempts + 1 ∧
      (extract incapableExtractor "u").2.health.successCount
        = incapableExtractor.health.successCount ∧
      (extract incapableExtractor "u").2.infoCalls = incapableExtractor.infoCalls ∧
      (extract incapableExtractor "u").2.audioUrlCalls
        = incapableExtractor.audioUrlCalls ∧
      (extractBuffer incapableExtractor "u").1.success = false ∧
      (extractBuffer incapableExtractor "u").2.health.totalAttempts
        = incapableExtractor.health.totalAttempts + 1 ∧
      (extractBuffer incapableExtractor "u").2.bufferCalls
        = incapableExtractor.bufferCalls ∧
      ((incapableExtractor.health.successCount : ℚ)
          / ((incapableExtractor.health.totalAttempts : ℚ) + 1)
            < incapableExtractor.health.successRate →
        (extract incapableExtractor "u").2.health.successRate
          < incapableExtractor.health.successRate)) :=
  ⟨Or.inl rfl, extract_invalid_url_records_failure incapableExtractor "u" (Or.inl rfl)⟩

end Cerebral
